import Mathlib

/-!
Verification of the sales-dashboard data pipeline (`src/app.py`).

The development shallowly embeds the data-facing parts of the Dash app:

* `parse_uploaded_file` (app.py lines 664-705): decoding dispatch on the
  filename extension, column-name cleaning, forced `date`/`product`/`sales`
  columns, `dropna(how='all')`, and `pd.to_datetime(..., errors='coerce')`
  on the `date` column.
* `manage_data` (app.py lines 563-662): the add/clear/upload callback that
  mutates the `stored-data` store.
* `update_dashboard` (app.py lines 758-920): the line-chart and bar-chart
  derivations from the store.

Modelling conventions:
* pandas cells are `Val`: `na` covers `NaN`/`NaT`/`None`, strings and
  numbers are tagged, and a parsed timestamp is `vdate` (timestamps in this
  pipeline always carry a zero time-of-day, so a calendar date suffices).
* Python numbers are modelled as integers (`Int`): every numeric value in
  the claims and in the pipeline's decision logic is integral, and no
  branch of the code depends on a fractional part or on floating-point
  rounding.
* `pd.to_datetime` is modelled for the inputs this app feeds it: ISO
  `YYYY-MM-DD` strings (also unpadded), already-parsed timestamps, and
  missing values.  A numeric cell is interpreted by pandas as a nanosecond
  offset from the epoch; for magnitudes below one day that is the epoch
  date, which is how the model renders it.
* Python `str.strip` / `str.lower` are modelled for ASCII text (`pyStrip`,
  `pyLower`), which covers every header and field the app manipulates.
-/

/-- A calendar date, year-month-day. -/
structure Date where
  year : Nat
  month : Nat
  day : Nat
deriving DecidableEq, Repr

/-- Leap-year rule of the proleptic Gregorian calendar (what pandas uses). -/
def isLeap (y : Nat) : Bool :=
  (y % 4 == 0 && y % 100 != 0) || y % 400 == 0

/-- Number of days in a month (0 for an out-of-range month). -/
def daysInMonth (y m : Nat) : Nat :=
  if m == 1 || m == 3 || m == 5 || m == 7 || m == 8 || m == 10 || m == 12 then 31
  else if m == 4 || m == 6 || m == 9 || m == 11 then 30
  else if m == 2 then (if isLeap y then 29 else 28)
  else 0

/-- A valid calendar date: month in range and day within the month. -/
def Date.valid (d : Date) : Bool :=
  1 ≤ d.month && d.month ≤ 12 && 1 ≤ d.day && d.day ≤ daysInMonth d.year d.month

/-- Lexicographic comparison on dates (used by pandas sorts). -/
def Date.le (a b : Date) : Bool :=
  a.year < b.year ||
    (a.year == b.year &&
      (a.month < b.month || (a.month == b.month && a.day ≤ b.day)))

/-- A pandas cell: missing (`NaN`/`NaT`/`None`), a string, a number, or a
parsed timestamp (always midnight in this pipeline, so a calendar date). -/
inductive Val where
  | na
  | vstr (s : String)
  | vnum (q : Int)
  | vdate (d : Date)
deriving DecidableEq, Repr

/-- pandas `isna`: exactly the missing cell. The empty string is not NA. -/
def Val.isNA : Val → Bool
  | .na => true
  | _ => false

/-- The whitespace set of Python `str.strip()`: space, tab, LF, CR,
vertical tab, form feed. -/
def isPySpace (c : Char) : Bool :=
  c == ' ' || c == '\t' || c == '\n' || c == '\r' ||
    c == Char.ofNat 11 || c == Char.ofNat 12

/-- Python `str.lower()` on one character, for the ASCII range the app's
headers and fields use. -/
def pyLower (c : Char) : Char :=
  match c with
  | 'A' => 'a' | 'B' => 'b' | 'C' => 'c' | 'D' => 'd' | 'E' => 'e'
  | 'F' => 'f' | 'G' => 'g' | 'H' => 'h' | 'I' => 'i' | 'J' => 'j'
  | 'K' => 'k' | 'L' => 'l' | 'M' => 'm' | 'N' => 'n' | 'O' => 'o'
  | 'P' => 'p' | 'Q' => 'q' | 'R' => 'r' | 'S' => 's' | 'T' => 't'
  | 'U' => 'u' | 'V' => 'v' | 'W' => 'w' | 'X' => 'x' | 'Y' => 'y'
  | 'Z' => 'z'
  | c => c

/-- Drop the trailing characters satisfying `p` (the right half of
Python `str.strip()`). -/
def dropTrailing (p : Char → Bool) : List Char → List Char
  | [] => []
  | a :: t =>
    match dropTrailing p t with
    | [] => if p a then [] else [a]
    | r => a :: r

/-- Python `str.strip()` on a character list: drop leading and trailing
whitespace. -/
def stripList (l : List Char) : List Char :=
  dropTrailing isPySpace (l.dropWhile isPySpace)

/-- Python `str.strip()`. -/
def pyStrip (s : String) : String :=
  ⟨stripList s.data⟩

/-- Column-name cleaning of app.py line 687:
`df.columns.str.strip().str.lower()`. -/
def cleanName (s : String) : String :=
  ⟨(stripList s.data).map pyLower⟩

/-- The lowercase ASCII letters: the possible outputs of `pyLower` other
than its fixed points. -/
def lowerLetters : List Char :=
  ['a','b','c','d','e','f','g','h','i','j','k','l','m',
   'n','o','p','q','r','s','t','u','v','w','x','y','z']

theorem pyLower_cases (c : Char) :
    pyLower c = c ∨ pyLower c ∈ lowerLetters := by
  unfold pyLower
  split
  all_goals first
  | (left; rfl)
  | (right; decide)

theorem pyLower_pyLower (c : Char) : pyLower (pyLower c) = pyLower c := by
  rcases pyLower_cases c with h | h
  · simp only [h]
  · have fix : ∀ x ∈ lowerLetters, pyLower x = x := by decide
    exact fix _ h

theorem isPySpace_pyLower (c : Char) : isPySpace (pyLower c) = isPySpace c := by
  unfold pyLower
  split
  all_goals rfl

theorem dropWhile_dropWhile (p : Char → Bool) (l : List Char) :
    List.dropWhile p (List.dropWhile p l) = List.dropWhile p l := by
  induction l with
  | nil => rfl
  | cons a t ih =>
    by_cases h : p a
    · simp [List.dropWhile, h, ih]
    · simp [List.dropWhile, h]

theorem dropTrailing_eq_nil_iff (p : Char → Bool) (l : List Char) :
    dropTrailing p l = [] ↔ ∀ x ∈ l, p x = true := by
  induction l with
  | nil => simp [dropTrailing]
  | cons a t ih =>
    rcases e : dropTrailing p t with _ | ⟨r, rs⟩
    · have ht := ih.mp e
      by_cases h : p a
      · simp only [dropTrailing, e, if_pos h]
        exact iff_of_true trivial (List.forall_mem_cons.mpr ⟨h, ht⟩)
      · simp only [dropTrailing, e, if_neg h]
        simp [List.forall_mem_cons, h]
    · simp only [dropTrailing, e]
      constructor
      · intro hcontra; cases hcontra
      · intro hall
        have hnil : dropTrailing p t = [] := ih.mpr (by
          intro x hx; exact hall x (List.mem_cons_of_mem a hx))
        rw [hnil] at e; cases e

theorem dropTrailing_dropTrailing (p : Char → Bool) (l : List Char) :
    dropTrailing p (dropTrailing p l) = dropTrailing p l := by
  induction l with
  | nil => rfl
  | cons a t ih =>
    rcases e : dropTrailing p t with _ | ⟨r, rs⟩
    · by_cases h : p a
      · simp [dropTrailing, e, h]
      · simp [dropTrailing, e, h]
    · rw [e] at ih
      have h1 : dropTrailing p (a :: t) = a :: r :: rs := by
        simp only [dropTrailing, e]
      rw [h1]
      show (match dropTrailing p (r :: rs) with
            | [] => if p a = true then [] else [a]
            | q => a :: q) = a :: r :: rs
      rw [ih]

theorem dropWhile_dropTrailing (p : Char → Bool) (l : List Char) :
    List.dropWhile p (dropTrailing p l) = dropTrailing p (List.dropWhile p l) := by
  induction l with
  | nil => rfl
  | cons a t ih =>
    by_cases h : p a
    · rcases e : dropTrailing p t with _ | ⟨r, rs⟩
      · have ht := (dropTrailing_eq_nil_iff p t).mp e
        have hw : List.dropWhile p t = [] := List.dropWhile_eq_nil_iff.mpr (by
          intro x hx; exact ht x hx)
        simp [dropTrailing, e, h, List.dropWhile, hw]
      · simp only [dropTrailing, e, List.dropWhile, h]
        simpa [e] using ih
    · rcases e : dropTrailing p t with _ | ⟨r, rs⟩
      · simp [dropTrailing, e, h, List.dropWhile]
      · simp [dropTrailing, e, h, List.dropWhile]

theorem stripList_stripList (l : List Char) :
    stripList (stripList l) = stripList l := by
  unfold stripList
  rw [dropWhile_dropTrailing, dropWhile_dropWhile, dropTrailing_dropTrailing]

theorem dropWhile_map_pyLower (l : List Char) :
    List.dropWhile isPySpace (List.map pyLower l)
      = List.map pyLower (List.dropWhile isPySpace l) := by
  induction l with
  | nil => rfl
  | cons a t ih =>
    by_cases hp : isPySpace a
    · simp [List.dropWhile, hp, isPySpace_pyLower, ih]
    · simp [List.dropWhile, hp, isPySpace_pyLower]

theorem dropTrailing_map_pyLower (l : List Char) :
    dropTrailing isPySpace (List.map pyLower l)
      = List.map pyLower (dropTrailing isPySpace l) := by
  induction l with
  | nil => rfl
  | cons a t ih =>
    unfold dropTrailing
    rcases e : dropTrailing isPySpace t with _ | ⟨r, rs⟩
    · rw [e] at ih; simp only [List.map_cons]
      rw [ih]
      simp [isPySpace_pyLower]
      by_cases h : isPySpace a <;> simp [h]
    · rw [e] at ih; simp only [List.map_cons]
      rw [ih]
      simp

theorem stripList_map_pyLower (l : List Char) :
    stripList (List.map pyLower l) = List.map pyLower (stripList l) := by
  unfold stripList
  rw [dropWhile_map_pyLower, dropTrailing_map_pyLower]

theorem cleanName_cleanName (s : String) :
    cleanName (cleanName s) = cleanName s := by
  show (⟨(stripList ((stripList s.data).map pyLower)).map pyLower⟩ : String) = _
  rw [stripList_map_pyLower, stripList_stripList, List.map_map]
  have hc : pyLower ∘ pyLower = pyLower := by
    funext c; exact pyLower_pyLower c
  rw [hc]
  rfl

/-- `str.lower()` on a whole string (ASCII range). -/
def pyLowerStr (s : String) : String :=
  ⟨s.data.map pyLower⟩

/-- `l` ends with `suf` (used for `filename.lower().endswith(...)`). -/
def suffixEq (l suf : List Char) : Bool :=
  l.reverse.take suf.length == suf.reverse

/-- `filename.lower().endswith(ext)` of app.py lines 674 and 680. -/
def hasExt (filename ext : String) : Bool :=
  suffixEq (pyLowerStr filename).data ext.data

/-- Split a character list at a separator (like `str.split(sep)`). -/
def splitOnChar (sep : Char) : List Char → List (List Char)
  | [] => [[]]
  | c :: t =>
    match splitOnChar sep t with
    | [] => [[]]
    | h :: rest => if c == sep then [] :: h :: rest else (c :: h) :: rest

/-- Parse a nonempty all-digit character list as a natural number. -/
def parseNatList : List Char → Option Nat
  | [] => none
  | l =>
    l.foldl
      (fun acc c =>
        match acc with
        | some n => if '0' ≤ c ∧ c ≤ '9' then some (n * 10 + (c.toNat - 48)) else none
        | none => none)
      (some 0)

/-- Parse a string as an ISO `YYYY-MM-DD` (also unpadded `YYYY-M-D`)
calendar date, rejecting invalid dates.  This models the date formats
`pd.to_datetime` sees in this app: the date-picker emits `YYYY-MM-DD` and
the spec's upload examples use the same shape. -/
def parseISODate (s : String) : Option Date :=
  match splitOnChar '-' (stripList s.data) with
  | [ys, ms, ds] =>
    match parseNatList ys, parseNatList ms, parseNatList ds with
    | some y, some m, some d =>
      if (Date.mk y m d).valid then some ⟨y, m, d⟩ else none
    | _, _, _ => none
  | _ => none

/-- `pd.to_datetime(v, errors='coerce')` on one cell (app.py line 699):
failures become `NaT`, never an error.  A numeric cell is read by pandas as
a nanosecond offset from the epoch; at the magnitudes a sales table could
hold that is the epoch date. -/
def toDatetimeCoerce : Val → Val
  | .na => .na
  | .vdate d => .vdate d
  | .vstr s => match parseISODate s with
    | some d => .vdate d
    | none => .na
  | .vnum _ => .vdate ⟨1970, 1, 1⟩

/-- A pandas DataFrame: named columns over a list of rows. -/
structure Frame where
  headers : List String
  rows : List (List Val)
deriving DecidableEq, Repr

/-- The columns forced to exist by app.py lines 690-693. -/
def requiredCols : List String := ["date", "product", "sales"]

/-- A row every cell of which is missing (`dropna(how='all')`'s test). -/
def allNA (r : List Val) : Bool := r.all Val.isNA

/-- One pass of the required-column loop: append an all-missing column
for each name of `cols` not yet among the headers. -/
def forceCols : List String → Frame → Frame
  | [], g => g
  | c :: cs, g =>
    forceCols cs
      (if c ∈ g.headers then g
       else ⟨g.headers ++ [c], g.rows.map (fun r => r ++ [Val.na])⟩)

/-- App.py lines 690-693: for each of `date`, `product`, `sales` missing
from the headers, append an all-missing column. -/
def forceRequired (f : Frame) : Frame :=
  forceCols requiredCols f

/-- App.py line 699: replace the `date` column by its
`pd.to_datetime(..., errors='coerce')` image. -/
def coerceDateCol (f : Frame) : Frame :=
  ⟨f.headers,
   f.rows.map (fun r =>
     r.set (f.headers.indexOf "date")
       (toDatetimeCoerce (r.getD (f.headers.indexOf "date") Val.na)))⟩

/-- App.py lines 686-699, the frame-normalization core of
`parse_uploaded_file`: clean the column names, force the three required
columns, drop fully-missing rows, coerce the `date` column. -/
def cleanFrame (f : Frame) : Frame :=
  let f1 : Frame := ⟨f.headers.map cleanName, f.rows⟩
  let f2 := forceRequired f1
  let f3 : Frame := ⟨f2.headers, f2.rows.filter (fun r => !(allNA r))⟩
  coerceDateCol f3

/-- What the upload payload's bytes parse to under each reader:
`asCsv` is the result of `pd.read_csv` (`none` = the call raises),
`asExcel` likewise for `pd.read_excel`. -/
structure Payload where
  asCsv : Option Frame
  asExcel : Option Frame
deriving DecidableEq, Repr

/-- The `contents` argument of `parse_uploaded_file`: falsy, a data-URL
whose splitting or base64-decoding raises, or a well-formed payload. -/
inductive Contents where
  | empty
  | malformed
  | wellFormed (p : Payload)
deriving DecidableEq, Repr

/-- The body of `parse_uploaded_file` (app.py lines 666-701) with
exceptions surfaced as `Except.error`, before the `except` clause
catches them. -/
def parse_inner (contents : Contents) (filename : String) :
    Except String (Option Frame) :=
  match contents with
  | .empty => .ok none
  | .malformed => .error "content split or base64 decode raised"
  | .wellFormed p =>
    if hasExt filename ".csv" then
      match p.asCsv with
      | some df => .ok (some (cleanFrame df))
      | none => .error "pd.read_csv raised"
    else if hasExt filename ".xlsx" || hasExt filename ".xls" then
      match p.asExcel with
      | some df => .ok (some (cleanFrame df))
      | none => .error "pd.read_excel raised"
    else .ok none

/-- `parse_uploaded_file` (app.py lines 664-705): the `try`/`except`
wrapper maps every raised error to `None`. -/
def parse_uploaded_file (contents : Contents) (filename : String) :
    Option Frame :=
  match parse_inner contents filename with
  | .ok r => r
  | .error _ => none

/-- A stored record: a dict as produced by `df.to_dict('records')`. -/
abbrev Rec := List (String × Val)

/-- `df.to_dict('records')`. -/
def frameToRecords (f : Frame) : List Rec :=
  f.rows.map (fun r => f.headers.zip r)

/-- The column set of `pd.DataFrame(list-of-dicts)`: union of the dicts'
keys in order of first appearance. -/
def recordsCols (s : List Rec) : List String :=
  s.foldl
    (fun acc r =>
      r.foldl (fun a kv => if kv.1 ∈ a then a else a ++ [kv.1]) acc)
    []

/-- `pd.DataFrame(records)`: missing keys become `NaN`. -/
def recordsToFrame (s : List Rec) : Frame :=
  let cols := recordsCols s
  ⟨cols, s.map (fun r => cols.map (fun c => ((r.lookup c).getD Val.na)))⟩

/-- Re-express a row of a frame with headers `hs` under the column list
`cols`, filling absent columns with `NaN` (how `pd.concat` aligns). -/
def alignRow (hs cols : List String) (r : List Val) : List Val :=
  cols.map (fun c => (((hs.zip r).lookup c).getD Val.na))

/-- `pd.concat([f, g], ignore_index=True)`: union the columns in order of
appearance and stack the aligned rows. -/
def concatFrames (f g : Frame) : Frame :=
  let cols := g.headers.foldl (fun a c => if c ∈ a then a else a ++ [c]) f.headers
  ⟨cols, f.rows.map (alignRow f.headers cols) ++ g.rows.map (alignRow g.headers cols)⟩

/-- Which input fired the `manage_data` callback. -/
inductive Trigger where
  | uploadData
  | addBtn
  | clearBtn
deriving DecidableEq, Repr

/-- The status message `manage_data` emits alongside a store write. -/
inductive Msg where
  | loaded (filename : String) (n : Nat)
  | fillAllFields
  | added (product : String) (sales : Int) (date : String)
  | cleared
deriving DecidableEq, Repr

/-- The observable effect of one `manage_data` call on the store output:
either a value written to `stored-data` (with its status message), or
`PreventUpdate` (the store keeps its previous value). -/
inductive StoreAction where
  | setStore (s : List Rec) (msg : Msg)
  | preventUpdate
deriving DecidableEq, Repr

/-- Python truthiness of an optional string (`None` and `""` are falsy). -/
def truthy : Option String → Bool
  | some s => s != ""
  | _ => false

/-- `manage_data` (app.py lines 563-662) with uncaught exceptions surfaced
as `Except.error`.  The branch structure mirrors the source: the upload
branch falls through to the later `if`s when the parse fails or yields an
empty frame, and the final `raise PreventUpdate` is the default. -/
def manage_data (trigger : Trigger) (add_clicks clear_clicks : Nat)
    (upload_contents : Contents) (filename date product : Option String)
    (sales : Option Int) (current_data : List Rec) : Except String StoreAction :=
  let clearOrPrevent : Except String StoreAction :=
    if trigger = .clearBtn ∧ 0 < clear_clicks then
      .ok (.setStore [] .cleared)
    else
      .ok .preventUpdate
  let addOrLater : Except String StoreAction :=
    if trigger = .addBtn ∧ 0 < add_clicks then
      match date, product, sales with
      | some ds, some ps, some q =>
        if ds = "" ∨ ps = "" then
          .ok (.setStore current_data .fillAllFields)
        else
          match parseISODate ds with
          | some d =>
            let newRow : Frame :=
              ⟨["date", "product", "sales"], [[.vdate d, .vstr ps, .vnum q]]⟩
            let combined := concatFrames (recordsToFrame current_data) newRow
            .ok (.setStore (frameToRecords combined) (.added ps q ds))
          | none => .error "pd.to_datetime raised"
      | _, _, _ =>
        .ok (.setStore current_data .fillAllFields)
    else
      clearOrPrevent
  if trigger = .uploadData ∧ upload_contents ≠ .empty ∧ truthy filename then
    match parse_uploaded_file upload_contents (filename.getD "") with
    | some df =>
      if df.rows ≠ [] then
        .ok (.setStore (frameToRecords df) (.loaded (filename.getD "") df.rows.length))
      else
        addOrLater
    | none => addOrLater
  else
    addOrLater

/-- Insert `a` into `l` keeping elements `le`-sorted; equal keys keep the
existing element first, so the enclosing sort is stable. -/
def insertLe {α : Type} (le : α → α → Bool) (a : α) : List α → List α
  | [] => [a]
  | b :: t => if le a b then a :: b :: t else b :: insertLe le a t

/-- Stable insertion sort by a boolean comparison. -/
def sortLe {α : Type} (le : α → α → Bool) : List α → List α
  | [] => []
  | a :: t => insertLe le a (sortLe le t)

/-- Keep the first occurrence of each element, preserving order. -/
def dedupKeep {α : Type} [DecidableEq α] (l : List α) : List α :=
  l.foldl (fun acc x => if x ∈ acc then acc else acc ++ [x]) []

/-- Order on cells used when pandas sorts group keys or a sort column.
Within one type it is the natural order; the cross-type ranking never
arises in a homogeneous column. -/
def valRank : Val → Nat
  | .na => 0
  | .vnum _ => 1
  | .vstr _ => 2
  | .vdate _ => 3

/-- Lexicographic order on character lists by code point (how Python
compares strings). -/
def lexLe : List Char → List Char → Bool
  | [], _ => true
  | _ :: _, [] => false
  | a :: s, b :: t =>
    if a == b then lexLe s t else Nat.blt a.toNat b.toNat

/-- Boolean cell comparison (same-typed cells; see `valRank`). -/
def valLe (a b : Val) : Bool :=
  match a, b with
  | .vnum x, .vnum y => decide (x ≤ y)
  | .vstr x, .vstr y => lexLe x.data y.data
  | .vdate x, .vdate y => Date.le x y
  | _, _ => valRank a ≤ valRank b

/-- Sort-column comparison of `sort_values`: missing values go last. -/
def cellSortLe (a b : Val) : Bool :=
  if a.isNA then b.isNA else if b.isNA then true else valLe a b

/-- pandas summation over one group's `sales` cells: numbers add, strings
concatenate (object dtype), a mixed-type sum is approximated as missing. -/
def addVal : Val → Val → Val
  | .vnum a, .vnum b => .vnum (a + b)
  | .vstr a, .vstr b => .vstr (a ++ b)
  | _, _ => .na

/-- `.sum()` of a nonempty group ( `[]` cannot arise from a groupby). -/
def sumVals : List Val → Val
  | [] => .vnum 0
  | a :: t => t.foldl addVal a

/-- `astype(str)` on a cell; only whether the result strips to the empty
string matters downstream, so numeric/date renderings are schematic. -/
def valToStr : Val → String
  | .na => "nan"
  | .vstr s => s
  | .vnum q => toString q
  | .vdate d => toString d.year ++ "-" ++ toString d.month ++ "-" ++ toString d.day

/-- Strict `pd.to_datetime` on one cell (app.py line 765 has no
`errors='coerce'`): an unparseable string raises. -/
def toDatetimeStrict : Val → Except String Val
  | .na => .ok .na
  | .vdate d => .ok (.vdate d)
  | .vnum _ => .ok (.vdate ⟨1970, 1, 1⟩)
  | .vstr s =>
    match parseISODate s with
    | some d => .ok (.vdate d)
    | none => .error "pd.to_datetime raised"

/-- Map a fallible function over a list, stopping at the first error
(the effect order of a Python `for` loop / pandas column operation). -/
def mapExcept {α β ε : Type} (f : α → Except ε β) : List α → Except ε (List β)
  | [] => .ok []
  | a :: t =>
    match f a, mapExcept f t with
    | .ok b, .ok bs => .ok (b :: bs)
    | .error e, _ => .error e
    | .ok _, .error e => .error e

/-- App.py lines 762-767: rebuild a frame from the store and re-parse its
`date` column strictly.  (The store round-trips through JSON, which turns
timestamps into ISO strings; `vdate` cells model their parsed images.) -/
def dashFrame (stored : List Rec) : Except String Frame :=
  if stored.isEmpty then .ok ⟨[], []⟩
  else
    if "date" ∈ (recordsToFrame stored).headers then
      match mapExcept
          (fun r => (toDatetimeStrict
              (r.getD ((recordsToFrame stored).headers.indexOf "date") Val.na)).map
            (fun v => r.set ((recordsToFrame stored).headers.indexOf "date") v))
          (recordsToFrame stored).rows with
      | .ok rows => .ok ⟨(recordsToFrame stored).headers, rows⟩
      | .error e => .error e
    else .ok (recordsToFrame stored)

/-- The data behind the line chart (app.py lines 784-819): when the frame
is nonempty and has `date` and `sales` columns, the rows sorted ascending
by `date` — one `(date, sales)` point per record, no grouping; otherwise
the "No data available" placeholder (`none`).  Ties of equal dates keep a
stable order here; the source's quicksort leaves their order unspecified,
and no theorem below depends on it. -/
def update_dashboard_line (stored : List Rec) :
    Except String (Option (List (Val × Val))) := do
  let f ← dashFrame stored
  if f.rows ≠ [] ∧ "date" ∈ f.headers ∧ "sales" ∈ f.headers then
    pure (some ((sortLe
        (fun r1 r2 => cellSortLe (r1.getD (f.headers.indexOf "date") Val.na)
          (r2.getD (f.headers.indexOf "date") Val.na)) f.rows).map
      (fun r => (r.getD (f.headers.indexOf "date") Val.na,
        r.getD (f.headers.indexOf "sales") Val.na))))
  else
    pure none

/-- The three shapes the bar chart takes (app.py lines 822-880). -/
inductive BarFig where
  | placeholder
  | noValidData
  | chart (bars : List (Val × Val))
deriving DecidableEq, Repr

/-- The grouping-sorting-truncation core of the bar chart (app.py lines
835-846): group the product/sales-complete rows by the raw `product`
value (pandas sorts group keys ascending), sum `sales` per group, drop
groups whose name strips to the empty string, sort descending by total,
keep the top 10. -/
def barData (pi si : Nat) (rows2 : List (List Val)) : List (Val × Val) :=
  (sortLe (fun a b => valLe b.2 a.2)
    ((sortLe valLe (dedupKeep (rows2.map (fun r => r.getD pi Val.na)))).map
      (fun k =>
        (k, sumVals ((rows2.filter (fun r => r.getD pi Val.na == k)).map
              (fun r => r.getD si Val.na)))) |>.filter
      (fun kv => pyStrip (valToStr kv.1) != ""))).take 10

/-- The data behind the bar chart (app.py lines 822-880): drop rows with
missing `product` or `sales`; if none survive, the "No valid product or
sales data" figure; otherwise chart the grouped totals of `barData`. -/
def update_dashboard_bar (stored : List Rec) : Except String BarFig := do
  let f ← dashFrame stored
  if f.rows ≠ [] ∧ "product" ∈ f.headers ∧ "sales" ∈ f.headers then
    if f.rows.filter
        (fun r => !(r.getD (f.headers.indexOf "product") Val.na).isNA &&
          !(r.getD (f.headers.indexOf "sales") Val.na).isNA) = [] then
      pure .noValidData
    else
      pure (.chart (barData (f.headers.indexOf "product") (f.headers.indexOf "sales")
        (f.rows.filter
          (fun r => !(r.getD (f.headers.indexOf "product") Val.na).isNA &&
            !(r.getD (f.headers.indexOf "sales") Val.na).isNA))))
  else
    pure .placeholder

/-- Sum of a list of numbers. -/
def ratSum (l : List Int) : Int :=
  l.foldl (fun a b => a + b) 0

/-- The `(date, sales)` pairs of the store's canonical-shaped records. -/
def recDateSales (s : List Rec) : List (Date × Int) :=
  s.filterMap (fun r =>
    match r.lookup "date", r.lookup "sales" with
    | some (.vdate d), some (.vnum q) => some (d, q)
    | _, _ => none)

/-- The `daily` derived view as the spec words it (spec section 4.3):
group records by calendar date, sum `sales` per date, sort ascending. -/
def daily_spec (s : List Rec) : List (Date × Int) :=
  let pairs := recDateSales s
  let keys := sortLe Date.le (dedupKeep (pairs.map Prod.fst))
  keys.map (fun k => (k, ratSum ((pairs.filter (fun p => p.1 = k)).map Prod.snd)))

/-- The `(trimmed product, sales)` pairs of the store's records. -/
def recProductSales (s : List Rec) : List (String × Int) :=
  s.filterMap (fun r =>
    match r.lookup "product", r.lookup "sales" with
    | some (.vstr p), some (.vnum q) => some (pyStrip p, q)
    | _, _ => none)

/-- The `by_product` derived view as the spec words it (spec section 4.3):
group by `product` post-trim, sum `sales`, sort descending by total,
truncate to the top 10. -/
def by_product_spec (s : List Rec) : List (String × Int) :=
  let pairs := recProductSales s
  let keys := dedupKeep (pairs.map Prod.fst)
  let totals := keys.map (fun k =>
    (k, ratSum ((pairs.filter (fun p => p.1 = k)).map Prod.snd)))
  (sortLe (fun a b => decide (b.2 ≤ a.2)) totals).take 10

/-- The Canonical Record constraints of spec section 3: `sales` a number
at least 0, `product` non-empty trimmed text, `date` a valid calendar
date. -/
def validCanonical (r : Rec) : Bool :=
  (match r.lookup "sales" with
   | some (.vnum q) => decide (0 ≤ q)
   | _ => false) &&
  (match r.lookup "product" with
   | some (.vstr s) => pyStrip s != ""
   | _ => false) &&
  (match r.lookup "date" with
   | some (.vdate d) => d.valid
   | _ => false)

deriving instance DecidableEq for Except

/-- The spec's header-canonicalization example: `" Date \r\n"`, `"PRODUCT"`,
`"Sales"` over one row. -/
def exHeaders : Frame :=
  ⟨[" Date \r\n", "PRODUCT", "Sales"],
   [[.vstr "2024-01-01", .vstr "Widget", .vnum 100]]⟩

/-- A one-record canonical store used as the pre-existing Data Store. -/
def store0 : List Rec :=
  [[("date", .vdate ⟨2024, 1, 1⟩), ("product", .vstr "B"), ("sales", .vnum 10)]]

/-- The spec's worked aggregation example:
`[{2024-01-01, A, 100}, {2024-01-01, B, 50}, {2024-01-02, A, 30}]`. -/
def exStore : List Rec :=
  [[("date", .vdate ⟨2024, 1, 1⟩), ("product", .vstr "A"), ("sales", .vnum 100)],
   [("date", .vdate ⟨2024, 1, 1⟩), ("product", .vstr "B"), ("sales", .vnum 50)],
   [("date", .vdate ⟨2024, 1, 2⟩), ("product", .vstr "A"), ("sales", .vnum 30)]]

/-- A store whose two products differ only by surrounding whitespace. -/
def exStoreTrim : List Rec :=
  [[("date", .vdate ⟨2024, 1, 1⟩), ("product", .vstr "A"), ("sales", .vnum 100)],
   [("date", .vdate ⟨2024, 1, 1⟩), ("product", .vstr " A"), ("sales", .vnum 50)]]

/-- An upload with no `sales` column at all. -/
def uploadNoSales : Frame :=
  ⟨["Date", "Product"], [[.vstr "2024-01-01", .vstr "Widget"]]⟩

/-- An upload whose single row has an unparseable date and nothing else. -/
def exBadDate : Frame :=
  ⟨["date", "product", "sales"], [[.vstr "garbage", .na, .na]]⟩

/-- C6: the canonical three headers after cleaning, and the full upload of
the spec's example file producing exactly one canonical record. -/
theorem header_canonicalization_example :
    cleanName " Date \r\n" = "date" ∧ cleanName "PRODUCT" = "product" ∧
    cleanName "Sales" = "sales" ∧
    parse_uploaded_file (.wellFormed ⟨some exHeaders, none⟩) "report.csv"
      = some ⟨["date", "product", "sales"],
          [[.vdate ⟨2024, 1, 1⟩, .vstr "Widget", .vnum 100]]⟩ := by
  decide

/-- C10: `parse_uploaded_file` is total — for every input it either
faithfully returns the value its body computed, or the body raised and the
`except` clause turns the result into `None`; no error escapes. -/
theorem parse_uploaded_file_total (c : Contents) (fn : String) :
    (∃ v, parse_inner c fn = .ok v ∧ parse_uploaded_file c fn = v) ∨
    (∃ e, parse_inner c fn = .error e ∧ parse_uploaded_file c fn = none) := by
  rcases h : parse_inner c fn with v | e
  · exact Or.inr ⟨v, rfl, by unfold parse_uploaded_file; rw [h]⟩
  · exact Or.inl ⟨e, rfl, by unfold parse_uploaded_file; rw [h]⟩

theorem manage_upload_parse_none (c : Contents) (fn : String)
    (ac cc : Nat) (d pr : Option String) (sl : Option Int) (cur : List Rec)
    (hparse : parse_uploaded_file c fn = none) :
    manage_data .uploadData ac cc c (some fn) d pr sl cur = .ok .preventUpdate := by
  unfold manage_data
  by_cases hc : c = Contents.empty
  · simp [hc, truthy]
  · by_cases hf : fn = ""
    · simp [hc, hf, truthy]
    · simp [hc, hf, truthy, hparse]

/-- C5: an upload whose filename extension is not `.csv`/`.xlsx`/`.xls`
(both reader hypotheses vacuous), or whose content fails to parse under
its claimed format (the matching reader raises), yields `None` from
`parse_uploaded_file`, and `manage_data` answers `PreventUpdate`, leaving
the store untouched; a payload that fails already at the data-URL or
base64 stage behaves the same. -/
theorem unrecognized_or_malformed_upload_rejected (p : Payload) (fn : String)
    (ac cc : Nat) (d pr : Option String) (sl : Option Int) (cur : List Rec)
    (hcsv : hasExt fn ".csv" = true → p.asCsv = none)
    (hxls : hasExt fn ".xlsx" = true ∨ hasExt fn ".xls" = true → p.asExcel = none) :
    parse_uploaded_file (.wellFormed p) fn = none ∧
    manage_data .uploadData ac cc (.wellFormed p) (some fn) d pr sl cur
      = .ok .preventUpdate ∧
    parse_uploaded_file .malformed fn = none ∧
    manage_data .uploadData ac cc .malformed (some fn) d pr sl cur
      = .ok .preventUpdate := by
  have hparse : parse_uploaded_file (.wellFormed p) fn = none := by
    unfold parse_uploaded_file parse_inner
    by_cases h1 : hasExt fn ".csv" = true
    · simp [h1, hcsv h1]
    · by_cases h2 : (hasExt fn ".xlsx" || hasExt fn ".xls") = true
      · have he : p.asExcel = none := hxls (Bool.or_eq_true _ _ |>.mp h2)
        simp [h1, h2, he]
      · simp [h1, h2]
  have hparse2 : parse_uploaded_file .malformed fn = none := rfl
  exact ⟨hparse,
    manage_upload_parse_none _ fn ac cc d pr sl cur hparse,
    hparse2,
    manage_upload_parse_none _ fn ac cc d pr sl cur hparse2⟩

/-- C5 witness: a `.txt` upload over the one-record store. -/
theorem unrecognized_or_malformed_upload_rejected_witness :
    parse_uploaded_file (.wellFormed ⟨none, none⟩) "notes.txt" = none ∧
    manage_data .uploadData 0 0 (.wellFormed ⟨none, none⟩) (some "notes.txt")
      none none none store0 = .ok .preventUpdate ∧
    parse_uploaded_file .malformed "notes.txt" = none ∧
    manage_data .uploadData 0 0 .malformed (some "notes.txt")
      none none none store0 = .ok .preventUpdate :=
  unrecognized_or_malformed_upload_rejected ⟨none, none⟩ "notes.txt" 0 0
    none none none store0 (fun _ => rfl) (fun _ => rfl)

/-- Numeric coercion as claim C3 words it (step 2): a number stands,
numeric text parses, everything else fails. -/
def specNumCoerce : Val → Option Int
  | .vnum q => some q
  | .vstr s => (parseNatList (stripList s.data)).map Int.ofNat
  | _ => none

/-- Calendar-date coercion as claim C3 words it (step 3). -/
def specDateCoerce (v : Val) : Option Date :=
  match toDatetimeCoerce v with
  | .vdate d => some d
  | _ => none

/-- The four-step row-filter pipeline exactly as claim C3 states it,
to be compared with the source's `cleanFrame`: (1) drop all-missing
rows; (2) drop rows whose `sales` does not coerce to a number; (3) drop
rows whose `date` does not coerce to a calendar date; (4) drop rows whose
trimmed `product` is empty or missing. -/
def normalize_spec (f : Frame) : Frame :=
  let f1 : Frame := ⟨f.headers.map cleanName, f.rows⟩
  let f2 := forceRequired f1
  let di := f2.headers.indexOf "date"
  let pi := f2.headers.indexOf "product"
  let si := f2.headers.indexOf "sales"
  let r1 := f2.rows.filter (fun r => !(allNA r))
  let r2 := r1.filter (fun r => (specNumCoerce (r.getD si Val.na)).isSome)
  let r3 := r2.filter (fun r => (specDateCoerce (r.getD di Val.na)).isSome)
  let r4 := r3.filter (fun r =>
    match r.getD pi Val.na with
    | .vstr s => pyStrip s != ""
    | _ => false)
  ⟨f2.headers, r4⟩

/-- C1 counterexample: uploading a date/product file with no sales column
replaces the store with a record whose `sales` is missing — the Data
Store does hold a record with a null `sales`, violating the invariant. -/
theorem store_invariant_counterexample :
    manage_data .uploadData 0 0 (.wellFormed ⟨some uploadNoSales, none⟩)
      (some "f.csv") none none none store0
      = .ok (.setStore
          [[("date", .vdate ⟨2024, 1, 1⟩), ("product", .vstr "Widget"), ("sales", .na)]]
          (.loaded "f.csv" 1)) ∧
    validCanonical
      [("date", .vdate ⟨2024, 1, 1⟩), ("product", .vstr "Widget"), ("sales", .na)]
      = false := by
  decide

/-- C2 counterexample: a manual entry with `sales = -5` and valid date and
product is not rejected — the record is appended and the store changes. -/
theorem negative_sales_accepted_counterexample :
    manage_data .addBtn 1 0 .empty none (some "2024-01-01") (some "A")
      (some (-5)) store0
      = .ok (.setStore
          (store0 ++
            [[("date", .vdate ⟨2024, 1, 1⟩), ("product", .vstr "A"), ("sales", .vnum (-5))]])
          (.added "A" (-5) "2024-01-01")) ∧
    store0 ++
        [[("date", .vdate ⟨2024, 1, 1⟩), ("product", .vstr "A"), ("sales", .vnum (-5))]]
      ≠ store0 := by
  decide

/-- C3 counterexample: a row whose date is unparseable and whose product
and sales are missing passes the source pipeline (kept with a missing
date), while the claim's four filters would drop it. -/
theorem row_filters_counterexample :
    cleanFrame exBadDate
      = ⟨["date", "product", "sales"], [[.na, .na, .na]]⟩ ∧
    normalize_spec exBadDate
      = ⟨["date", "product", "sales"], []⟩ ∧
    cleanFrame exBadDate ≠ normalize_spec exBadDate := by
  decide

/-- C4 counterexample: uploading a file with no `sales` column yields one
record (not zero), a success outcome (not `EmptyResult`/`ParseFailure`),
and replaces the prior store content. -/
theorem missing_sales_column_counterexample :
    manage_data .uploadData 0 0 (.wellFormed ⟨some uploadNoSales, none⟩)
      (some "f.csv") none none none store0
      = .ok (.setStore
          [[("date", .vdate ⟨2024, 1, 1⟩), ("product", .vstr "Widget"), ("sales", .na)]]
          (.loaded "f.csv" 1)) ∧
    [[("date", .vdate ⟨2024, 1, 1⟩), ("product", .vstr "Widget"), ("sales", Val.na)]]
      ≠ store0 := by
  decide

/-- C7 counterexample: on the spec's example store the line chart carries
three raw points — same-day records are not merged and sales are not
summed — not the two grouped points the claim predicts. -/
theorem daily_view_counterexample :
    update_dashboard_line exStore
      = .ok (some [(.vdate ⟨2024, 1, 1⟩, .vnum 100), (.vdate ⟨2024, 1, 1⟩, .vnum 50),
                   (.vdate ⟨2024, 1, 2⟩, .vnum 30)]) ∧
    daily_spec exStore = [(⟨2024, 1, 1⟩, 150), (⟨2024, 1, 2⟩, 30)] ∧
    ¬ update_dashboard_line exStore
        = .ok (some [(.vdate ⟨2024, 1, 1⟩, .vnum 150), (.vdate ⟨2024, 1, 2⟩, .vnum 30)]) := by
  decide

/-- C8 counterexample: two products differing only in surrounding
whitespace form two separate bars — grouping is by the raw, untrimmed
product — while the claim's post-trim grouping would merge them. -/
theorem by_product_trim_counterexample :
    update_dashboard_bar exStoreTrim
      = .ok (.chart [(.vstr "A", .vnum 100), (.vstr " A", .vnum 50)]) ∧
    by_product_spec exStoreTrim = [("A", 150)] ∧
    ¬ update_dashboard_bar exStoreTrim = .ok (.chart [(.vstr "A", .vnum 150)]) := by
  decide

/-- C9 counterexample: normalization is not idempotent — a row kept on the
first pass only because of its unparseable date text becomes all-missing
after coercion and is dropped by the second pass. -/
theorem normalize_not_idempotent_counterexample :
    cleanFrame exBadDate
      = ⟨["date", "product", "sales"], [[.na, .na, .na]]⟩ ∧
    cleanFrame (cleanFrame exBadDate)
      = ⟨["date", "product", "sales"], []⟩ ∧
    cleanFrame (cleanFrame exBadDate) ≠ cleanFrame exBadDate := by
  decide

theorem allNA_append (r : List Val) : allNA (r ++ [Val.na]) = allNA r := by
  simp [allNA, List.all_append, Val.isNA]

theorem forceCols_filter_length (cols : List String) (g : Frame) :
    ((forceCols cols g).rows.filter (fun r => !(allNA r))).length
      = (g.rows.filter (fun r => !(allNA r))).length := by
  induction cols generalizing g with
  | nil => rfl
  | cons c cs ih =>
    show ((forceCols cs _).rows.filter _).length = _
    rw [ih]
    by_cases h : c ∈ g.headers
    · rw [if_pos h]
    · rw [if_neg h]
      show ((g.rows.map (fun r => r ++ [Val.na])).filter _).length = _
      rw [List.filter_map]
      rw [List.length_map]
      congr 1
      apply List.filter_congr
      intro r _
      simp [Function.comp, allNA_append]

/-- C3 amended: the only row filter the upload pipeline applies is
dropping the rows in which every field is missing — the record count of
the normalized frame equals the count of not-all-missing input rows, so
no row is ever dropped for an uncoercible `sales`, an unparseable `date`,
or a blank `product`. -/
theorem normalizer_drops_only_all_missing_rows (f : Frame) :
    (cleanFrame f).rows.length
      = (f.rows.filter (fun r => !(allNA r))).length := by
  show ((((forceRequired ⟨f.headers.map cleanName, f.rows⟩).rows.filter
      (fun r => !(allNA r))).map _)).length = _
  rw [List.length_map]
  exact forceCols_filter_length requiredCols ⟨f.headers.map cleanName, f.rows⟩

/-- A store every record of which is a dict with exactly the canonical
keys `date`, `product`, `sales` in that order (the shape both
`manage_data` branches produce). -/
def canonicalStore (s : List Rec) : Prop :=
  ∀ r ∈ s, ∃ v1 v2 v3, r = [("date", v1), ("product", v2), ("sales", v3)]

theorem recordsCols_aux (cur : List Rec) (h : canonicalStore cur)
    (acc : List String) (hd : "date" ∈ acc) (hp : "product" ∈ acc)
    (hs : "sales" ∈ acc) :
    List.foldl
      (fun acc r => r.foldl (fun a kv => if kv.1 ∈ a then a else a ++ [kv.1]) acc)
      acc cur = acc := by
  induction cur generalizing acc with
  | nil => rfl
  | cons r rest ih =>
    obtain ⟨v1, v2, v3, rfl⟩ := h _ (List.mem_cons_self _ _)
    show List.foldl _ (List.foldl _ acc [("date", v1), ("product", v2), ("sales", v3)]) rest = acc
    have hinner :
        List.foldl (fun a (kv : String × Val) => if kv.1 ∈ a then a else a ++ [kv.1]) acc
          [("date", v1), ("product", v2), ("sales", v3)] = acc := by
      simp [List.foldl, hd, hp, hs]
    rw [hinner]
    exact ih (fun r hr => h r (List.mem_cons_of_mem _ hr)) acc hd hp hs

theorem recordsCols_canonical (r0 : Rec) (rest : List Rec)
    (h : canonicalStore (r0 :: rest)) :
    recordsCols (r0 :: rest) = ["date", "product", "sales"] := by
  obtain ⟨v1, v2, v3, hr0⟩ := h _ (List.mem_cons_self _ _)
  unfold recordsCols
  rw [hr0]
  show List.foldl _ (List.foldl _ [] [("date", v1), ("product", v2), ("sales", v3)]) rest
    = ["date", "product", "sales"]
  have hinner :
      List.foldl (fun a (kv : String × Val) => if kv.1 ∈ a then a else a ++ [kv.1]) []
        [("date", v1), ("product", v2), ("sales", v3)] = ["date", "product", "sales"] := by
    simp [List.foldl]
  rw [hinner]
  exact recordsCols_aux rest (fun r hr => h r (List.mem_cons_of_mem _ hr)) _
    (by decide) (by decide) (by decide)

theorem concat_append_canonical (cur : List Rec) (h : canonicalStore cur)
    (v1 v2 v3 : Val) :
    frameToRecords (concatFrames (recordsToFrame cur)
        ⟨["date", "product", "sales"], [[v1, v2, v3]]⟩)
      = cur ++ [[("date", v1), ("product", v2), ("sales", v3)]] := by
  cases cur with
  | nil => rfl
  | cons r0 rest =>
    unfold recordsToFrame
    rw [recordsCols_canonical r0 rest h]
    unfold concatFrames frameToRecords
    have hx : List.foldl (fun (a : List String) c => if c ∈ a then a else a ++ [c])
        ["date", "product", "sales"] ["date", "product", "sales"]
        = ["date", "product", "sales"] := by decide
    simp only [hx]
    rw [List.map_append, List.map_map, List.map_map]
    have hmain : List.map
        (((fun r => List.zip ["date", "product", "sales"] r) ∘
          (alignRow ["date", "product", "sales"] ["date", "product", "sales"])) ∘
          (fun r => List.map (fun c => (List.lookup c r).getD Val.na)
            ["date", "product", "sales"]))
        (r0 :: rest) = r0 :: rest := by
      have hpt : ∀ r ∈ r0 :: rest,
          (((fun r => List.zip ["date", "product", "sales"] r) ∘
            (alignRow ["date", "product", "sales"] ["date", "product", "sales"])) ∘
            (fun r => List.map (fun c => (List.lookup c r).getD Val.na)
              ["date", "product", "sales"])) r = r := by
        intro r hr
        obtain ⟨w1, w2, w3, rfl⟩ := h r hr
        rfl
      calc List.map _ (r0 :: rest) = List.map id (r0 :: rest) :=
            List.map_congr_left hpt
        _ = r0 :: rest := List.map_id _
    rw [hmain]
    rfl

/-- C2 amended: a manual entry with a missing date, empty product or
absent sales is rejected with the fill-in-all-fields message and the
store value is returned unchanged; a submission with all three present
(and a parseable date) appends exactly one record — the sales amount is
never range-checked, so negative values pass. -/
theorem manual_entry_validation :
    (∀ (ac cc : Nat) (c : Contents) (fnm date product : Option String)
        (sales : Option Int) (cur : List Rec), 0 < ac →
        (truthy date = false ∨ truthy product = false ∨ sales = none) →
        manage_data .addBtn ac cc c fnm date product sales cur
          = .ok (.setStore cur .fillAllFields)) ∧
    (∀ (ac cc : Nat) (c : Contents) (fnm : Option String) (ds ps : String)
        (q : Int) (d : Date) (cur : List Rec), 0 < ac →
        ds ≠ "" → ps ≠ "" → parseISODate ds = some d → canonicalStore cur →
        manage_data .addBtn ac cc c fnm (some ds) (some ps) (some q) cur
          = .ok (.setStore
              (cur ++ [[("date", .vdate d), ("product", .vstr ps), ("sales", .vnum q)]])
              (.added ps q ds))) := by
  constructor
  · intro ac cc c fnm date product sales cur hac hbad
    unfold manage_data
    rw [if_neg (by rintro ⟨h, -⟩; exact absurd h (by decide))]
    rw [if_pos ⟨rfl, hac⟩]
    rcases date with _ | ds
    · rfl
    · rcases product with _ | ps
      · rfl
      · rcases sales with _ | q
        · rfl
        · have hempty : ds = "" ∨ ps = "" := by
            simp [truthy] at hbad
            tauto
          change (if ds = "" ∨ ps = "" then
              Except.ok (StoreAction.setStore cur Msg.fillAllFields) else _) = _
          rw [if_pos hempty]
  · intro ac cc c fnm ds ps q d cur hac hds hps hdate hcur
    unfold manage_data
    rw [if_neg (by rintro ⟨h, -⟩; exact absurd h (by decide))]
    rw [if_pos ⟨rfl, hac⟩]
    change (if ds = "" ∨ ps = "" then _ else _) = _
    rw [if_neg (by rintro (h | h); exact hds h; exact hps h)]
    change (match parseISODate ds with
      | some d =>
        Except.ok (StoreAction.setStore
          (frameToRecords (concatFrames (recordsToFrame cur)
            ⟨["date", "product", "sales"], [[Val.vdate d, Val.vstr ps, Val.vnum q]]⟩))
          (Msg.added ps q ds))
      | none => Except.error "pd.to_datetime raised") = _
    rw [hdate]
    change Except.ok (StoreAction.setStore
      (frameToRecords (concatFrames (recordsToFrame cur)
        ⟨["date", "product", "sales"], [[Val.vdate d, Val.vstr ps, Val.vnum q]]⟩))
      (Msg.added ps q ds)) = _
    rw [concat_append_canonical cur hcur]

/-- C2 witness: `product=""` is rejected over the one-record store, and a
complete entry (sales 7) is appended to it. -/
theorem manual_entry_validation_witness :
    manage_data .addBtn 1 0 .empty none (some "2024-01-01") (some "") (some 5) store0
      = .ok (.setStore store0 .fillAllFields) ∧
    manage_data .addBtn 1 0 .empty none (some "2024-01-01") (some "Gadget") (some 7) store0
      = .ok (.setStore
          (store0 ++
            [[("date", .vdate ⟨2024, 1, 1⟩), ("product", .vstr "Gadget"), ("sales", .vnum 7)]])
          (.added "Gadget" 7 "2024-01-01")) :=
  ⟨manual_entry_validation.1 1 0 .empty none (some "2024-01-01") (some "") (some 5)
      store0 (by decide) (Or.inr (Or.inl (by decide))),
   manual_entry_validation.2 1 0 .empty none "2024-01-01" "Gadget" 7 ⟨2024, 1, 1⟩
      store0 (by decide) (by decide) (by decide) (by decide)
      (by intro r hr
          simp [store0] at hr
          subst hr
          exact ⟨_, _, _, rfl⟩)⟩

/-- Every row has exactly one cell per header (true of any real pandas
frame; ragged frames cannot arise from `read_csv`/`read_excel`). -/
def frameWF (f : Frame) : Prop :=
  ∀ r ∈ f.rows, r.length = f.headers.length

theorem forceCols_wf (cols : List String) (g : Frame) (h : frameWF g) :
    frameWF (forceCols cols g) := by
  induction cols generalizing g with
  | nil => exact h
  | cons c cs ih =>
    show frameWF (forceCols cs _)
    apply ih
    by_cases hm : c ∈ g.headers
    · rw [if_pos hm]; exact h
    · rw [if_neg hm]
      intro r hr
      obtain ⟨r0, hr0, rfl⟩ := List.mem_map.mp hr
      simp [h r0 hr0]

theorem frameWF_cleanFrame (f : Frame) (h : frameWF f) :
    frameWF (cleanFrame f) := by
  have h1 : frameWF ⟨f.headers.map cleanName, f.rows⟩ := by
    intro r hr
    simpa using h r hr
  have h2 := forceCols_wf requiredCols _ h1
  intro r hr
  obtain ⟨r0, hr0, rfl⟩ := List.mem_map.mp hr
  have hr0' := h2 r0 (List.mem_filter.mp hr0).1
  simpa using hr0'

theorem forceCols_headers_mono (cols : List String) (g : Frame) (x : String)
    (h : x ∈ g.headers) : x ∈ (forceCols cols g).headers := by
  induction cols generalizing g with
  | nil => exact h
  | cons c cs ih =>
    show x ∈ (forceCols cs _).headers
    apply ih
    by_cases hm : c ∈ g.headers
    · rw [if_pos hm]; exact h
    · rw [if_neg hm]; exact List.mem_append_left _ h

theorem forceCols_headers_mem (cols : List String) (g : Frame) (c : String)
    (h : c ∈ cols) : c ∈ (forceCols cols g).headers := by
  induction cols generalizing g with
  | nil => cases h
  | cons a cs ih =>
    rcases List.mem_cons.mp h with rfl | h'
    · show c ∈ (forceCols cs _).headers
      by_cases hm : c ∈ g.headers
      · rw [if_pos hm]
        exact forceCols_headers_mono cs _ c hm
      · rw [if_neg hm]
        exact forceCols_headers_mono cs _ c (List.mem_append_right _ (by simp))
    · exact ih _ h'

theorem lookup_zip_isSome (hs : List String) (r : List Val) (c : String)
    (hmem : c ∈ hs) (hlen : r.length = hs.length) :
    (List.lookup c (hs.zip r)).isSome = true := by
  induction hs generalizing r with
  | nil => cases hmem
  | cons a hs' ih =>
    cases r with
    | nil => simp at hlen
    | cons b r' =>
      show (List.lookup c ((a, b) :: hs'.zip r')).isSome = true
      by_cases he : c == a
      · simp [List.lookup, he]
      · have hc : c ∈ hs' := by
          rcases List.mem_cons.mp hmem with rfl | h'
          · simp at he
          · exact h'
        simp only [List.lookup, he]
        exact ih r' hc (by simpa using hlen)


theorem manage_upload_empty_filename (ac cc : Nat) (c : Contents)
    (d pr : Option String) (sl : Option Int) (cur : List Rec) :
    manage_data .uploadData ac cc c (some "") d pr sl cur = .ok .preventUpdate := by
  unfold manage_data
  rw [if_neg (by rintro ⟨-, -, ht⟩; exact absurd ht (by decide))]
  rw [if_neg (by rintro ⟨h, -⟩; exact absurd h (by decide))]
  rw [if_neg (by rintro ⟨h, -⟩; exact absurd h (by decide))]

theorem manage_upload_parse_some (c : Contents) (fn : String) (df : Frame)
    (ac cc : Nat) (d pr : Option String) (sl : Option Int) (cur : List Rec)
    (hc : c ≠ .empty) (hfn : fn ≠ "")
    (hparse : parse_uploaded_file c fn = some df) (hrows : df.rows ≠ []) :
    manage_data .uploadData ac cc c (some fn) d pr sl cur
      = .ok (.setStore (frameToRecords df) (.loaded fn df.rows.length)) := by
  unfold manage_data
  rw [if_pos ⟨rfl, hc, by simp [truthy, hfn]⟩]
  simp only [Option.getD_some]
  rw [hparse]
  change (if df.rows ≠ [] then
      Except.ok (StoreAction.setStore (frameToRecords df) (Msg.loaded fn df.rows.length))
    else _) = _
  rw [if_pos hrows]

theorem manage_upload_empty_frame (c : Contents) (fn : String) (df : Frame)
    (ac cc : Nat) (d pr : Option String) (sl : Option Int) (cur : List Rec)
    (hc : c ≠ .empty) (hfn : fn ≠ "")
    (hparse : parse_uploaded_file c fn = some df) (hrows : df.rows = []) :
    manage_data .uploadData ac cc c (some fn) d pr sl cur = .ok .preventUpdate := by
  unfold manage_data
  rw [if_pos ⟨rfl, hc, by simp [truthy, hfn]⟩]
  simp only [Option.getD_some]
  rw [hparse]
  change (if df.rows ≠ [] then _ else
      (if Trigger.uploadData = Trigger.addBtn ∧ 0 < ac then _
       else if Trigger.uploadData = Trigger.clearBtn ∧ 0 < cc then _
       else Except.ok StoreAction.preventUpdate)) = _
  rw [if_neg (by simp [hrows])]
  rw [if_neg (by rintro ⟨h, -⟩; exact absurd h (by decide))]
  rw [if_neg (by rintro ⟨h, -⟩; exact absurd h (by decide))]

/-- C1 amended: a successful upload stores records that all carry the
three canonical fields `date`, `product` and `sales` (the forced columns
guarantee the shape), but nothing more — the counterexample shows the
values themselves are not validated. -/
theorem upload_store_three_column_shape (raw : Frame) (pe : Option Frame)
    (fn : String) (ac cc : Nat) (d pr : Option String) (sl : Option Int)
    (cur s : List Rec) (m : Msg)
    (hwf : frameWF raw)
    (hcsv : hasExt fn ".csv" = true)
    (hrun : manage_data .uploadData ac cc (.wellFormed ⟨some raw, pe⟩)
      (some fn) d pr sl cur = .ok (.setStore s m)) :
    ∀ r ∈ s, (List.lookup "date" r).isSome = true ∧
      (List.lookup "product" r).isSome = true ∧
      (List.lookup "sales" r).isSome = true := by
  have hparse : parse_uploaded_file (.wellFormed ⟨some raw, pe⟩) fn
      = some (cleanFrame raw) := by
    unfold parse_uploaded_file parse_inner
    simp [hcsv]
  by_cases hfn : fn = ""
  · subst hfn
    rw [manage_upload_empty_filename] at hrun
    simp at hrun
  · by_cases hr : (cleanFrame raw).rows = []
    · rw [manage_upload_empty_frame _ fn _ ac cc d pr sl cur (by simp) hfn hparse hr] at hrun
      simp at hrun
    · rw [manage_upload_parse_some _ fn _ ac cc d pr sl cur (by simp) hfn hparse hr] at hrun
      simp only [Except.ok.injEq, StoreAction.setStore.injEq] at hrun
      obtain ⟨hs, hm⟩ := hrun
      subst hs
      intro rec hrec
      obtain ⟨row, hrow, rfl⟩ := List.mem_map.mp hrec
      have hlen : row.length = (cleanFrame raw).headers.length :=
        frameWF_cleanFrame raw hwf row hrow
      have hhd : ∀ c ∈ requiredCols, c ∈ (cleanFrame raw).headers := by
        intro c hc
        exact forceCols_headers_mem requiredCols _ c hc
      exact ⟨lookup_zip_isSome _ _ _ (hhd "date" (by decide)) hlen,
        lookup_zip_isSome _ _ _ (hhd "product" (by decide)) hlen,
        lookup_zip_isSome _ _ _ (hhd "sales" (by decide)) hlen⟩

/-- C1 witness: the no-sales-column upload over the one-record store. -/
theorem upload_store_three_column_shape_witness :
    (List.lookup "date"
      [("date", Val.vdate ⟨2024, 1, 1⟩), ("product", Val.vstr "Widget"),
       ("sales", Val.na)]).isSome = true ∧
    (List.lookup "product"
      [("date", Val.vdate ⟨2024, 1, 1⟩), ("product", Val.vstr "Widget"),
       ("sales", Val.na)]).isSome = true ∧
    (List.lookup "sales"
      [("date", Val.vdate ⟨2024, 1, 1⟩), ("product", Val.vstr "Widget"),
       ("sales", Val.na)]).isSome = true :=
  upload_store_three_column_shape uploadNoSales none "f.csv" 0 0 none none none
    store0
    [[("date", Val.vdate ⟨2024, 1, 1⟩), ("product", Val.vstr "Widget"), ("sales", Val.na)]]
    (.loaded "f.csv" 1)
    (by intro r hr
        simp [uploadNoSales] at hr
        subst hr
        rfl)
    (by decide) (by decide)
    [("date", Val.vdate ⟨2024, 1, 1⟩), ("product", Val.vstr "Widget"), ("sales", Val.na)]
    (by decide)

/-- C4 amended: uploading a date/product file with no `sales` column
synthesizes the column with all-missing values, and every not-entirely-
blank row is loaded with `sales` missing; the parsed set replaces the
store under a success outcome, one stored record per surviving row. -/
theorem missing_sales_column_loads_rows (raw : Frame) (pe : Option Frame)
    (fn : String) (ac cc : Nat) (d pr : Option String) (sl : Option Int)
    (cur : List Rec)
    (hhdr : raw.headers.map cleanName = ["date", "product"])
    (hwf : ∀ r ∈ raw.rows, r.length = 2)
    (hcsv : hasExt fn ".csv" = true) (hfn : fn ≠ "")
    (hne : raw.rows.filter (fun r => !(allNA r)) ≠ []) :
    ∃ s, manage_data .uploadData ac cc (.wellFormed ⟨some raw, pe⟩)
        (some fn) d pr sl cur
        = .ok (.setStore s (.loaded fn s.length)) ∧
      s.length = (raw.rows.filter (fun r => !(allNA r))).length ∧
      ∀ rec ∈ s, List.lookup "sales" rec = some Val.na := by
  have hclean : cleanFrame raw = ⟨["date", "product", "sales"],
      ((raw.rows.map (fun r => r ++ [Val.na])).filter (fun r => !(allNA r))).map
        (fun r => r.set 0 (toDatetimeCoerce (r.getD 0 Val.na)))⟩ := by
    unfold cleanFrame forceRequired coerceDateCol
    rw [hhdr]
    rfl
  have hrows : (cleanFrame raw).rows
      = ((raw.rows.filter (fun r => !(allNA r))).map (fun r => r ++ [Val.na])).map
        (fun r => r.set 0 (toDatetimeCoerce (r.getD 0 Val.na))) := by
    rw [hclean]
    show ((raw.rows.map (fun r => r ++ [Val.na])).filter (fun r => !(allNA r))).map _ = _
    rw [List.filter_map]
    congr 1
    congr 1
    apply List.filter_congr
    intro r _
    simp [Function.comp, allNA_append]
  have hparse : parse_uploaded_file (.wellFormed ⟨some raw, pe⟩) fn
      = some (cleanFrame raw) := by
    unfold parse_uploaded_file parse_inner
    simp [hcsv]
  have hrne : (cleanFrame raw).rows ≠ [] := by
    rw [hrows]
    simp only [ne_eq, List.map_eq_nil_iff]
    exact hne
  refine ⟨frameToRecords (cleanFrame raw), ?_, ?_, ?_⟩
  · have := manage_upload_parse_some _ fn (cleanFrame raw) ac cc d pr sl cur
      (by simp) hfn hparse hrne
    rw [this]
    have hlen : (frameToRecords (cleanFrame raw)).length = (cleanFrame raw).rows.length := by
      unfold frameToRecords
      rw [List.length_map]
    rw [hlen]
  · unfold frameToRecords
    rw [List.length_map, hrows, List.length_map, List.length_map]
  · intro rec hrec
    unfold frameToRecords at hrec
    obtain ⟨row, hrow, rfl⟩ := List.mem_map.mp hrec
    rw [hrows] at hrow
    obtain ⟨r1, hr1, rfl⟩ := List.mem_map.mp hrow
    obtain ⟨r0, hr0, rfl⟩ := List.mem_map.mp hr1
    have hr0mem : r0 ∈ raw.rows := (List.mem_filter.mp hr0).1
    obtain ⟨a, b, rfl⟩ := List.length_eq_two.mp (hwf r0 hr0mem)
    rw [hclean]
    rfl

/-- C4 witness: the one-row date/product upload. -/
theorem missing_sales_column_loads_rows_witness :
    ∃ s, manage_data .uploadData 0 0 (.wellFormed ⟨some uploadNoSales, none⟩)
        (some "f.csv") none none none store0
        = .ok (.setStore s (.loaded "f.csv" s.length)) ∧
      s.length = (uploadNoSales.rows.filter (fun r => !(allNA r))).length ∧
      ∀ rec ∈ s, List.lookup "sales" rec = some Val.na :=
  missing_sales_column_loads_rows uploadNoSales none "f.csv" 0 0 none none none
    store0 (by decide) (by decide) (by decide) (by decide) (by decide)

theorem insertLe_length {α : Type} (le : α → α → Bool) (a : α) (l : List α) :
    (insertLe le a l).length = l.length + 1 := by
  induction l with
  | nil => rfl
  | cons b t ih =>
    unfold insertLe
    by_cases h : le a b
    · rw [if_pos h]; rfl
    · rw [if_neg h]
      simp [ih]

theorem sortLe_length {α : Type} (le : α → α → Bool) (l : List α) :
    (sortLe le l).length = l.length := by
  induction l with
  | nil => rfl
  | cons a t ih =>
    show (insertLe le a (sortLe le t)).length = t.length + 1
    rw [insertLe_length, ih]

theorem mapExcept_ok_length {α β ε : Type} (f : α → Except ε β)
    (l : List α) (l' : List β) (h : mapExcept f l = .ok l') :
    l'.length = l.length := by
  induction l generalizing l' with
  | nil =>
    cases h
    rfl
  | cons a t ih =>
    unfold mapExcept at h
    rcases hf : f a with e | b <;> rw [hf] at h
    · cases h
    · rcases hm : mapExcept f t with e | bs <;> rw [hm] at h
      · cases h
      · cases h
        simp [ih bs hm]

theorem dashFrame_ok_length (s : List Rec) (f : Frame)
    (h : dashFrame s = .ok f) : f.rows.length = s.length := by
  unfold dashFrame at h
  by_cases hs : s.isEmpty
  · rw [if_pos hs] at h
    cases h
    have hnil : s = [] := List.isEmpty_iff.mp hs
    subst hnil
    rfl
  · rw [if_neg hs] at h
    by_cases hd : "date" ∈ (recordsToFrame s).headers
    · rw [if_pos hd] at h
      rcases hm : mapExcept
          (fun r => (toDatetimeStrict
              (r.getD ((recordsToFrame s).headers.indexOf "date") Val.na)).map
            (fun v => r.set ((recordsToFrame s).headers.indexOf "date") v))
          (recordsToFrame s).rows with e | rows <;> rw [hm] at h
      · cases h
      · cases h
        show rows.length = s.length
        rw [mapExcept_ok_length _ _ _ hm]
        unfold recordsToFrame
        simp
    · rw [if_neg hd] at h
      cases h
      unfold recordsToFrame
      simp

/-- C7 amended: the line chart plots one `(date, sales)` point per stored
record — no same-day merging, no summing — sorted by date; on the spec's
example store it carries the three raw points, and the empty store shows
the no-data placeholder instead of an empty series. -/
theorem line_chart_one_point_per_record :
    (∀ (s : List Rec) (pts : List (Val × Val)),
        update_dashboard_line s = .ok (some pts) → pts.length = s.length) ∧
    update_dashboard_line exStore
      = .ok (some [(.vdate ⟨2024, 1, 1⟩, .vnum 100), (.vdate ⟨2024, 1, 1⟩, .vnum 50),
                   (.vdate ⟨2024, 1, 2⟩, .vnum 30)]) ∧
    update_dashboard_line [] = .ok none := by
  refine ⟨?_, by decide, by decide⟩
  intro s pts h
  unfold update_dashboard_line at h
  rcases hdf : dashFrame s with e | f <;> rw [hdf] at h
  · cases h
  · simp only [Bind.bind, Except.bind] at h
    by_cases hc : f.rows ≠ [] ∧ "date" ∈ f.headers ∧ "sales" ∈ f.headers
    · rw [if_pos hc] at h
      simp only [pure, Except.pure, Except.ok.injEq, Option.some.injEq] at h
      subst h
      rw [List.length_map, sortLe_length]
      exact dashFrame_ok_length s f hdf
    · rw [if_neg hc] at h
      cases h

/-- C7 witness: the point count at the example store. -/
theorem line_chart_one_point_per_record_witness :
    ([((Val.vdate ⟨2024, 1, 1⟩ : Val), (Val.vnum 100 : Val)),
      (Val.vdate ⟨2024, 1, 1⟩, Val.vnum 50),
      (Val.vdate ⟨2024, 1, 2⟩, Val.vnum 30)] : List (Val × Val)).length
      = exStore.length :=
  line_chart_one_point_per_record.1 exStore _ (by decide)

/-- C8 amended: the bar chart drops records with missing product or
sales, groups by the raw (untrimmed) product value, sums sales per group,
removes groups whose name is blank after trimming, sorts descending by
total and keeps at most 10 bars; on the spec's example store it equals
`[{A, 130}, {B, 50}]`.  (The counterexample shows trimming plays no part
in the grouping key.) -/
theorem by_product_raw_grouping :
    (∀ (s : List Rec) (bars : List (Val × Val)),
        update_dashboard_bar s = .ok (.chart bars) → bars.length ≤ 10) ∧
    update_dashboard_bar exStore
      = .ok (.chart [(.vstr "A", .vnum 130), (.vstr "B", .vnum 50)]) := by
  refine ⟨?_, by decide⟩
  intro s bars h
  unfold update_dashboard_bar at h
  rcases hdf : dashFrame s with e | f <;> rw [hdf] at h
  · cases h
  · simp only [Bind.bind, Except.bind] at h
    by_cases hc : f.rows ≠ [] ∧ "product" ∈ f.headers ∧ "sales" ∈ f.headers
    · rw [if_pos hc] at h
      by_cases h2 : f.rows.filter
          (fun r => !(r.getD (f.headers.indexOf "product") Val.na).isNA &&
            !(r.getD (f.headers.indexOf "sales") Val.na).isNA) = []
      · rw [if_pos h2] at h
        cases h
      · rw [if_neg h2] at h
        simp only [pure, Except.pure, Except.ok.injEq, BarFig.chart.injEq] at h
        subst h
        unfold barData
        exact List.length_take_le 10 _
    · rw [if_neg hc] at h
      cases h

/-- C8 witness: the example store's chart respects the top-10 bound. -/
theorem by_product_raw_grouping_witness :
    ([((Val.vstr "A" : Val), (Val.vnum 130 : Val)),
      (Val.vstr "B", Val.vnum 50)] : List (Val × Val)).length ≤ 10 :=
  by_product_raw_grouping.1 exStore _ (by decide)

theorem toDatetimeCoerce_idem (v : Val) :
    toDatetimeCoerce (toDatetimeCoerce v) = toDatetimeCoerce v := by
  cases v with
  | na => rfl
  | vdate d => rfl
  | vnum q => rfl
  | vstr s =>
    rcases hp : parseISODate s with _ | d
    · simp [toDatetimeCoerce, hp]
    · simp [toDatetimeCoerce, hp]

theorem set_coerce_idem (i : Nat) (r : List Val) :
    ((r.set i (toDatetimeCoerce (r.getD i Val.na))).set i
        (toDatetimeCoerce ((r.set i (toDatetimeCoerce (r.getD i Val.na))).getD i Val.na)))
      = r.set i (toDatetimeCoerce (r.getD i Val.na)) := by
  induction r generalizing i with
  | nil => rfl
  | cons a t ih =>
    cases i with
    | zero =>
      simp only [List.set, List.getD_cons_zero]
      rw [toDatetimeCoerce_idem]
    | succ j =>
      simp only [List.set, List.getD_cons_succ]
      rw [ih]

theorem coerceDateCol_coerceDateCol (f : Frame) :
    coerceDateCol (coerceDateCol f) = coerceDateCol f := by
  unfold coerceDateCol
  congr 1
  rw [List.map_map]
  apply List.map_congr_left
  intro r _
  exact set_coerce_idem _ r

theorem forceCols_id (cols : List String) (g : Frame)
    (h : ∀ c ∈ cols, c ∈ g.headers) : forceCols cols g = g := by
  induction cols generalizing g with
  | nil => rfl
  | cons c cs ih =>
    show forceCols cs _ = g
    rw [if_pos (h c (List.mem_cons_self _ _))]
    exact ih g (fun c' hc' => h c' (List.mem_cons_of_mem _ hc'))

theorem forceCols_headers_fixed (cols : List String) (g : Frame)
    (hg : ∀ x ∈ g.headers, cleanName x = x) (hc : ∀ c ∈ cols, cleanName c = c) :
    ∀ x ∈ (forceCols cols g).headers, cleanName x = x := by
  induction cols generalizing g with
  | nil => exact hg
  | cons c cs ih =>
    show ∀ x ∈ (forceCols cs _).headers, cleanName x = x
    apply ih
    · by_cases hm : c ∈ g.headers
      · rw [if_pos hm]; exact hg
      · rw [if_neg hm]
        intro x hx
        rcases List.mem_append.mp hx with hx' | hx'
        · exact hg x hx'
        · rw [List.mem_singleton.mp hx']
          exact hc c (List.mem_cons_self _ _)
    · exact fun c' hc' => hc c' (List.mem_cons_of_mem _ hc')

theorem cleanFrame_headers_fixed (f : Frame) :
    ∀ x ∈ (cleanFrame f).headers, cleanName x = x := by
  intro x hx
  have := forceCols_headers_fixed requiredCols ⟨f.headers.map cleanName, f.rows⟩
    (by intro y hy
        obtain ⟨z, _, rfl⟩ := List.mem_map.mp hy
        exact cleanName_cleanName z)
    (by intro c hc
        fin_cases hc <;> rfl)
  exact this x hx

/-- C9 amended: re-running the normalization core on its own output is
the identity whenever that output contains no all-missing row; the
counterexample shows the only failure mode — a row surviving the first
`dropna(how='all')` solely on unparseable date text, which the coercion
then blanks out. -/
theorem normalize_idempotent_when_no_all_missing_row (f : Frame)
    (h : ∀ r ∈ (cleanFrame f).rows, allNA r = false) :
    cleanFrame (cleanFrame f) = cleanFrame f := by
  have hmap : (cleanFrame f).headers.map cleanName = (cleanFrame f).headers := by
    have := cleanFrame_headers_fixed f
    calc (cleanFrame f).headers.map cleanName
        = (cleanFrame f).headers.map id := List.map_congr_left this
      _ = (cleanFrame f).headers := List.map_id _
  have hreq : ∀ c ∈ requiredCols, c ∈ (cleanFrame f).headers := by
    intro c hc
    exact forceCols_headers_mem requiredCols _ c hc
  have hforce : forceCols requiredCols ⟨(cleanFrame f).headers, (cleanFrame f).rows⟩
      = ⟨(cleanFrame f).headers, (cleanFrame f).rows⟩ :=
    forceCols_id _ _ (by intro c hc; exact hreq c hc)
  have hfilter : (cleanFrame f).rows.filter (fun r => !(allNA r)) = (cleanFrame f).rows :=
    List.filter_eq_self.mpr (by intro r hr; simp [h r hr])
  show coerceDateCol ⟨(forceCols requiredCols
      ⟨(cleanFrame f).headers.map cleanName, (cleanFrame f).rows⟩).headers,
    (forceCols requiredCols
      ⟨(cleanFrame f).headers.map cleanName, (cleanFrame f).rows⟩).rows.filter
        (fun r => !(allNA r))⟩ = cleanFrame f
  rw [hmap, hforce]
  show coerceDateCol ⟨(cleanFrame f).headers, (cleanFrame f).rows.filter (fun r => !(allNA r))⟩
    = cleanFrame f
  rw [hfilter]
  show coerceDateCol (coerceDateCol ⟨(forceCols requiredCols
      ⟨f.headers.map cleanName, f.rows⟩).headers,
    (forceCols requiredCols ⟨f.headers.map cleanName, f.rows⟩).rows.filter
      (fun r => !(allNA r))⟩) = cleanFrame f
  rw [coerceDateCol_coerceDateCol]
  rfl

/-- C9 witness: idempotence at the spec's example upload. -/
theorem normalize_idempotent_when_no_all_missing_row_witness :
    cleanFrame (cleanFrame exHeaders) = cleanFrame exHeaders :=
  normalize_idempotent_when_no_all_missing_row exHeaders (by decide)
